import Mathlib

/-!
Verification of the Sudoku checker / solver in
src/problem_set_3/sudoku_checker.py.

The Python module is embedded shallowly:

* a grid cell is a Python value, modelled by Cell (an integer or any
  non-integer object; only integers are ever compared against integers,
  so all non-integers collapse into one constructor);
* a raw grid (the argument of check_sudoku) is a list of lists of cells;
* a solver grid (the argument of solve_sudoku) is a list of lists of
  integers, matching the callers in the source which always pass integer
  grids to the solver;
* the exception raised by get_open_positions is modelled with Except;
* the recursion of _solve is modelled with an explicit fuel parameter;
  82 units of fuel are always enough because every recursive call fills
  one previously empty cell (proved below), and a 9x9 grid has at most
  81 empty cells.
-/

/-- A Python value stored in a grid cell: either an int or some
non-integer object.  The source only ever compares cells with integers
after the isinstance check, so one constructor suffices for all
non-integers. -/
inductive Cell where
| int (n : Int)
| nonInt
deriving DecidableEq, Repr

abbrev RawGrid := List (List Cell)

abbrev Grid := List (List Int)

/-- View an integer grid as a raw grid of Python values. -/
def toRaw (g : Grid) : RawGrid := g.map (fun row => row.map Cell.int)

/-- Reading grid[r][c] on an integer grid; out-of-range reads default to
0 (they never occur under the 9x9 shape assumptions used below). -/
def cellAt (g : Grid) (r c : Nat) : Int := (g.getD r []).getD c 0

/-- Reading grid[r][c] on a raw grid. -/
def rawCellAt (g : RawGrid) (r c : Nat) : Cell := (g.getD r []).getD c (Cell.int 0)

/-- The positions (row_index, col_index) produced by the nested
enumerate loops of the source, in row-major order.  The loop bodies
re-read value = grid[row_index][col_index], which is cellAt. -/
def positionsOf (g : List (List α)) : List (Nat × Nat) :=
  (List.range g.length).flatMap (fun r => (List.range ((g.getD r []).length)).map (fun c => (r, c)))

/-- make_subgrid_id from the source: the pair (row/3, col/3) with
integer division.  The Python function returns the string
str(row/3) ++ str(col/3); on the reachable arguments (indices 0..8 of a
9x9 grid) both components are single digits, so the string encodes this
pair injectively and the pair is a faithful model of the key. -/
def make_subgrid_id (row_val col_val : Nat) : Nat × Nat := (row_val / 3, col_val / 3)

/-- insert_unique_value from the source: unique_sets is modelled as a
total function defaulting to [] (the source creates the missing entry
with [] on first use); returns none where the source returns False. -/
def insert_unique_value (sets : (Nat × Nat) → List Cell) (set_id : Nat × Nat) (value : Cell) :
    Option ((Nat × Nat) → List Cell) :=
  if value ∈ sets set_id then none
  else some (fun i => if i = set_id then sets set_id ++ [value] else sets i)

/-- The row-major cell loop of nums_unique_per_subgrid: skip zeros,
insert every other value into its box set, fail on a duplicate. -/
def subgridLoop (g : RawGrid) : List (Nat × Nat) → ((Nat × Nat) → List Cell) → Bool
| [], _ => true
| (r, c) :: rest, sets =>
    let value := rawCellAt g r c
    if value = Cell.int 0 then subgridLoop g rest sets
    else
      match insert_unique_value sets (make_subgrid_id r c) value with
      | none => false
      | some sets2 => subgridLoop g rest sets2

/-- nums_unique_per_subgrid from the source. -/
def nums_unique_per_subgrid (grid : RawGrid) : Bool :=
  subgridLoop grid (positionsOf grid) (fun _ => [])

/-- nums_unique_per_row from the source, bug included: in the source the
membership test `if col in seen` and the append sit at the row level,
outside the column loop (the column loop body only skips zeros), so per
row they run once, with col bound to the last element of the row and
seen freshly reset to [].  An empty row would leave col unbound in
Python (NameError) or stale; that case is modelled as true and is
unreachable from check_sudoku, which has already checked that every row
has 9 elements. -/
def nums_unique_per_row (grid : RawGrid) : Bool :=
  grid.all (fun row =>
    let seen : List Cell := []
    match row.getLast? with
    | some col => !(seen.contains col)
    | none => true)

/-- The inner loop of nums_unique_per_column for one column index x:
walk the rows accumulating seen, failing on a repeated non-zero value.
Reads row[x]; the default for a too-short row never fires under the
shape precondition established by check_sudoku. -/
def columnSeenLoop (x : Nat) : List (List Cell) → List Cell → Bool
| [], _ => true
| row :: rows, seen =>
    let v := row.getD x (Cell.int 0)
    if v = Cell.int 0 then columnSeenLoop x rows seen
    else if v ∈ seen then false
    else columnSeenLoop x rows (seen ++ [v])

/-- nums_unique_per_column from the source. -/
def nums_unique_per_column (grid : RawGrid) : Bool :=
  (List.range 9).all (fun x => columnSeenLoop x grid [])

/-- is_9x9_grid from the source. -/
def is_9x9_grid (grid : RawGrid) : Bool :=
  if grid.length ≠ 9 then false
  else grid.all (fun row => row.length == 9)

/-- One cell passing the domain check of contains_only_0_to_9:
isinstance(col, int) and 0 <= col <= 9. -/
def isDigitCell : Cell → Bool
| Cell.int n => decide (0 ≤ n) && decide (n ≤ 9)
| Cell.nonInt => false

/-- contains_only_0_to_9 from the source. -/
def contains_only_0_to_9 (grid : RawGrid) : Bool :=
  grid.all (fun row => row.all isDigitCell)

/-- check_sudoku from the source.  none models Python None (the spec
verdict Malformed), some false models False (Invalid), some true models
True (Valid). -/
def check_sudoku (grid : RawGrid) : Option Bool :=
  if !is_9x9_grid grid then none
  else if !contains_only_0_to_9 grid then none
  else if !nums_unique_per_row grid then some false
  else if !nums_unique_per_column grid then some false
  else if !nums_unique_per_subgrid grid then some false
  else some true

/-! Concrete grids.  valid and easy are the literals of the source file;
the others are inputs used by individual claims. -/

def validGrid : Grid :=
  [[5,3,4,6,7,8,9,1,2],
   [6,7,2,1,9,5,3,4,8],
   [1,9,8,3,4,2,5,6,7],
   [8,5,9,7,6,1,4,2,3],
   [4,2,6,8,5,3,7,9,1],
   [7,1,3,9,2,4,8,5,6],
   [9,6,1,5,3,7,2,8,4],
   [2,8,7,4,1,9,6,3,5],
   [3,4,5,2,8,6,1,7,9]]

def easyGrid : Grid :=
  [[2,9,0,0,0,0,0,7,0],
   [3,0,6,0,0,8,4,0,0],
   [8,0,0,0,4,0,0,0,2],
   [0,2,0,0,3,1,0,0,7],
   [0,0,0,0,8,0,0,0,0],
   [1,0,0,9,5,0,0,6,0],
   [7,0,0,0,9,0,0,0,1],
   [0,0,1,2,0,0,3,0,6],
   [0,3,0,0,0,0,0,5,9]]

/-- An otherwise empty grid whose first row holds the digit 8 twice;
no column and no box sees the digit twice. -/
def gRowDup : Grid :=
  [[8,0,0,0,0,8,0,0,0],
   [0,0,0,0,0,0,0,0,0],
   [0,0,0,0,0,0,0,0,0],
   [0,0,0,0,0,0,0,0,0],
   [0,0,0,0,0,0,0,0,0],
   [0,0,0,0,0,0,0,0,0],
   [0,0,0,0,0,0,0,0,0],
   [0,0,0,0,0,0,0,0,0],
   [0,0,0,0,0,0,0,0,0]]

/-- A well-formed grid whose empty cell (0,0) sees all nine digits:
digits 1..8 in its row and 9 in its column. -/
def gContra : Grid :=
  [[0,1,2,3,4,5,6,7,8],
   [0,0,0,0,0,0,0,0,0],
   [0,0,0,0,0,0,0,0,0],
   [9,0,0,0,0,0,0,0,0],
   [0,0,0,0,0,0,0,0,0],
   [0,0,0,0,0,0,0,0,0],
   [0,0,0,0,0,0,0,0,0],
   [0,0,0,0,0,0,0,0,0],
   [0,0,0,0,0,0,0,0,0]]

/-- An eight-row grid full of duplicate 1s: malformed shape and
duplicated digits at once. -/
def gShort : Grid := List.replicate 8 (List.replicate 9 (1 : Int))

/-- C2.  For every structurally well-formed 9x9 grid in which some row
contains the same non-zero digit in two different cells, check is
claimed to return Invalid, even without any column or box conflict.
The code violates this: on gRowDup, which passes the shape and domain
checks and holds 8 at both (0,0) and (0,5) of row 0, check_sudoku
returns some true (Valid), because the row-uniqueness test of the
source sits outside its column loop and never sees a duplicate. -/
theorem row_duplicate_reported_valid :
    is_9x9_grid (toRaw gRowDup) = true ∧
    contains_only_0_to_9 (toRaw gRowDup) = true ∧
    rawCellAt (toRaw gRowDup) 0 0 = Cell.int 8 ∧
    rawCellAt (toRaw gRowDup) 0 5 = Cell.int 8 ∧
    check_sudoku (toRaw gRowDup) = some true := by
  refine ⟨by decide, by decide, by decide, by decide, by decide⟩

/-- is_9x9_grid in propositional form. -/
theorem is_9x9_grid_eq_true_iff (g : RawGrid) :
    is_9x9_grid g = true ↔ g.length = 9 ∧ ∀ row ∈ g, row.length = 9 := by
  unfold is_9x9_grid
  by_cases h : g.length = 9
  · simp [h]
  · simp [h]

/-- contains_only_0_to_9 in propositional form. -/
theorem contains_only_0_to_9_eq_true_iff (g : RawGrid) :
    contains_only_0_to_9 g = true ↔ ∀ row ∈ g, ∀ c ∈ row, isDigitCell c = true := by
  unfold contains_only_0_to_9
  simp

/-- C5.  Any input failing the shape check (row count or some row length
different from 9) or the domain check (some cell not an integer in
[0,9]) is reported as Malformed (Python None), and the shape and domain
checks run before any uniqueness check, so the verdict is none no
matter what duplicate digits the input contains. -/
theorem malformed_before_uniqueness (g : RawGrid)
    (h : g.length ≠ 9 ∨ (∃ row ∈ g, row.length ≠ 9) ∨
         (∃ row ∈ g, ∃ c ∈ row, isDigitCell c = false)) :
    check_sudoku g = none := by
  rcases h with h | ⟨row, hrow, hlen⟩ | ⟨row, hrow, c, hc, hbad⟩
  · have h9 : is_9x9_grid g = false := by
      rcases Bool.eq_false_or_eq_true (is_9x9_grid g) with hb | hb
      · exact absurd ((is_9x9_grid_eq_true_iff g).1 hb).1 h
      · exact hb
    simp [check_sudoku, h9]
  · have h9 : is_9x9_grid g = false := by
      rcases Bool.eq_false_or_eq_true (is_9x9_grid g) with hb | hb
      · exact absurd (((is_9x9_grid_eq_true_iff g).1 hb).2 row hrow) hlen
      · exact hb
    simp [check_sudoku, h9]
  · have hd : contains_only_0_to_9 g = false := by
      rcases Bool.eq_false_or_eq_true (contains_only_0_to_9 g) with hb | hb
      · have := (contains_only_0_to_9_eq_true_iff g).1 hb row hrow c hc
        rw [this] at hbad
        exact absurd hbad (by simp)
      · exact hb
    by_cases h9 : is_9x9_grid g = true
    · simp [check_sudoku, h9, hd]
    · simp [check_sudoku, Bool.eq_false_iff.2 h9]

/-- Witness for C5: an 8-row grid crammed with duplicate 1s is
Malformed, not Invalid. -/
theorem malformed_before_uniqueness_witness :
    check_sudoku (toRaw gShort) = none :=
  malformed_before_uniqueness (toRaw gShort) (by decide)

/-! The candidate indexer, get_open_positions.  The source makes one
row-major pass filling three defaultdict maps (values per box, per
column, per row) and then a second row-major pass computing, for every
empty position, the digits absent from all three.  The keys of the
three maps never interact, so each final entry equals the direct
row-major collection of the matching non-zero cells, which is how the
three set functions are written here. -/

/-- The values accumulated in row_sets[r]: the non-zero cells of row r
in left-to-right order. -/
def row_set (g : Grid) (r : Nat) : List Int :=
  (g.getD r []).filter (fun v => !decide (v = 0))

/-- The values accumulated in col_sets[c]: the non-zero cells of column
c in top-to-bottom order (rows too short to reach c contribute
nothing; the 0 default is filtered out). -/
def col_set (g : Grid) (c : Nat) : List Int :=
  (g.map (fun row => row.getD c 0)).filter (fun v => !decide (v = 0))

/-- The values accumulated in subgrid_sets[sid]: the non-zero cells
whose position has box id sid, in row-major order. -/
def subgrid_set (g : Grid) (sid : Nat × Nat) : List Int :=
  ((positionsOf g).filter
      (fun p => !decide (cellAt g p.1 p.2 = 0) && decide (make_subgrid_id p.1 p.2 = sid))).map
    (fun p => cellAt g p.1 p.2)

/-- range(1, 10) from the source. -/
def digits1to9 : List Int := [1, 2, 3, 4, 5, 6, 7, 8, 9]

/-- The candidate list computed for one empty position: the digits 1..9
not in the box set, not in the column set, not in the row set, in
ascending order. -/
def possible_values_of (g : Grid) (r c : Nat) : List Int :=
  digits1to9.filter (fun n =>
    !decide (n ∈ subgrid_set g (make_subgrid_id r c)) &&
    !decide (n ∈ col_set g c) &&
    !decide (n ∈ row_set g r))

/-- The message of the exception raised by get_open_positions. -/
def failMsg : String := "FAIL"

abbrev OpenPos := List ((Nat × Nat) × List Int)

/-- The second pass of get_open_positions: walk the positions in
row-major order, skip filled cells, record the candidate list of
each empty cell, and raise (Except.error) as the source does when an
empty cell has no candidate. -/
def openPosLoop (g : Grid) : List (Nat × Nat) → Except String OpenPos
| [] => .ok []
| (r, c) :: rest =>
    if cellAt g r c ≠ 0 then openPosLoop g rest
    else
      let cands := possible_values_of g r c
      if cands.length = 0 then .error failMsg
      else
        match openPosLoop g rest with
        | .error e => .error e
        | .ok m => .ok (((r, c), cands) :: m)

/-- get_open_positions from the source. -/
def get_open_positions (g : Grid) : Except String OpenPos :=
  openPosLoop g (positionsOf g)

/-- get_possible_values from the source: look the position up in the
computed map.  A missing key would raise KeyError in Python; it is
modelled as [] and never occurs during a solve, because cells are only
ever filled, so every zero of a searched grid is a zero of the
original grid and hence a key of the map. -/
def get_possible_values (row col : Nat) (open_positions : OpenPos) : List Int :=
  match open_positions.find? (fun e => e.1 == (row, col)) with
  | some e => e.2
  | none => []

/-! The backtracking solver.  _solve deep-copies its argument before
touching it, so at the level of values it is the pure recursion below:
the first still-empty cell in row-major order is located, and each of
its candidates is tried in turn on a grid extended with that candidate.
Python recursion carries no fuel; the fuel parameter makes the
recursion structural, and 82 units are proved sufficient for every 9x9
grid below, each recursive call filling one previously empty cell. -/

/-- The positions (row, col) scanned by the two nested range(0,9) loops
of _solve, in row-major order. -/
def rowMajor : List (Nat × Nat) :=
  (List.range 9).flatMap (fun r => (List.range 9).map (fun c => (r, c)))

/-- The first position of the scan holding 0, if any. -/
def firstZero (g : Grid) : Option (Nat × Nat) :=
  rowMajor.find? (fun p => decide (cellAt g p.1 p.2 = 0))

/-- grid[row][col] = n as a value operation. -/
def setCell (g : Grid) (r c : Nat) (n : Int) : Grid :=
  g.set r ((g.getD r []).set c n)

/-- The candidate loop of _solve: try each candidate in order; a
recursive success is returned as is, a recursive failure moves on to
the next candidate on the unmodified parent grid, and exhaustion
returns False (modelled some none).  The outer none is fuel
exhaustion. -/
def tryList (f : Int → Option (Option Grid)) : List Int → Option (Option Grid)
| [] => some none
| n :: rest =>
    match f n with
    | some (some sol) => some (some sol)
    | some none => tryList f rest
    | none => none

/-- _solve from the source, fuel-indexed.  some (some g) models
returning a grid, some none models returning False, none means the
fuel ran out (impossible with fuel 82 on a 9x9 grid, proved below). -/
def _solveF : Nat → Grid → OpenPos → Option (Option Grid)
| 0, _, _ => none
| fuel + 1, g, ops =>
    match firstZero g with
    | none => some (some g)
    | some (r, c) =>
        tryList (fun n => _solveF fuel (setCell g r c n) ops) (get_possible_values r c ops)

/-- solve_sudoku from the source (with the default open_positions,
which every caller in the source uses): index the candidates, then run
the search with enough fuel for any 9x9 grid. -/
def solve_sudoku (g : Grid) : Except String (Option Grid) :=
  match get_open_positions g with
  | .error e => .error e
  | .ok ops =>
      match _solveF 82 g ops with
      | some res => .ok res
      | none => .ok none

/-- The number of scanned positions currently holding 0. -/
def countZeros (g : Grid) : Nat :=
  rowMajor.countP (fun p => decide (cellAt g p.1 p.2 = 0))

/-- The valid completed grid of the source with the three cells (0,0),
(0,1) and (8,0) blanked (their solution values are 5, 3 and 3).  It
passes check_sudoku as Valid, yet the stale candidate sets let the
solver place a 3 at (0,0). -/
def gStale : Grid :=
  [[0,0,4,6,7,8,9,1,2],
   [6,7,2,1,9,5,3,4,8],
   [1,9,8,3,4,2,5,6,7],
   [8,5,9,7,6,1,4,2,3],
   [4,2,6,8,5,3,7,9,1],
   [7,1,3,9,2,4,8,5,6],
   [9,6,1,5,3,7,2,8,4],
   [2,8,7,4,1,9,6,3,5],
   [0,4,5,2,8,6,1,7,9]]

/-- The grid the solver actually returns on gStale: cell (0,0) gets 3
(the first stale candidate), clashing with the 3 placed at (0,1); the
other two blanks get their correct values back. -/
def gStaleOut : Grid :=
  [[3,3,4,6,7,8,9,1,2],
   [6,7,2,1,9,5,3,4,8],
   [1,9,8,3,4,2,5,6,7],
   [8,5,9,7,6,1,4,2,3],
   [4,2,6,8,5,3,7,9,1],
   [7,1,3,9,2,4,8,5,6],
   [9,6,1,5,3,7,2,8,4],
   [2,8,7,4,1,9,6,3,5],
   [3,4,5,2,8,6,1,7,9]]

/-- C1.  The claim says: whenever check accepts a grid as Valid and
solve returns a grid, that grid is fully filled with digits 1..9,
matches the givens, and itself passes check as Valid.  The code
violates the last part: on gStale (accepted as Valid) the solver,
working from stale candidate sets and never re-checking consistency,
returns gStaleOut, which is fully filled in 1..9 and matches every
given, yet check rejects it as Invalid (two 3s in column 0). -/
theorem solver_unchecked_output_invalid :
    check_sudoku (toRaw gStale) = some true ∧
    solve_sudoku gStale = .ok (some gStaleOut) ∧
    (∀ r, r < 9 → ∀ c, c < 9 → 1 ≤ cellAt gStaleOut r c ∧ cellAt gStaleOut r c ≤ 9) ∧
    (∀ r, r < 9 → ∀ c, c < 9 → cellAt gStale r c ≠ 0 →
      cellAt gStaleOut r c = cellAt gStale r c) ∧
    check_sudoku (toRaw gStaleOut) = some false := by
  exact ⟨by decide, by rfl, by decide, by decide, by decide⟩

/-- C3.  The claim says: on a well-formed grid with an empty cell whose
row, column and box already hold all nine digits, solve returns the
ordinary Unsolvable result instead of raising.  The code violates
this: on gContra, whose empty cell (0,0) sees the digits 1..8 in its
row and 9 in its column, get_open_positions raises Exception FAIL
(modelled Except.error), so solve_sudoku propagates an exception
rather than returning False. -/
theorem contradiction_raises_not_unsolvable :
    check_sudoku (toRaw gContra) = some true ∧
    cellAt gContra 0 0 = 0 ∧
    (∀ n ∈ digits1to9,
      n ∈ row_set gContra 0 ∨ n ∈ col_set gContra 0 ∨
      n ∈ subgrid_set gContra (make_subgrid_id 0 0)) ∧
    solve_sudoku gContra = .error failMsg := by
  exact ⟨by decide, by decide, by decide, by rfl⟩

/-- The 9x9 shape of a solver grid. -/
def Shape9 (g : Grid) : Prop := g.length = 9 ∧ ∀ row ∈ g, row.length = 9

instance (g : Grid) : Decidable (Shape9 g) := by
  unfold Shape9; infer_instance

theorem getD_length_of_shape9 {g : Grid} (h9 : Shape9 g) {r : Nat} (hr : r < 9) :
    (g.getD r []).length = 9 := by
  have hr2 : r < g.length := by rw [h9.1]; exact hr
  rw [List.getD_eq_getElem _ _ hr2]
  exact h9.2 _ (List.getElem_mem hr2)

theorem mem_positionsOf {g : List (List α)} {r c : Nat} :
    (r, c) ∈ positionsOf g ↔ r < g.length ∧ c < (g.getD r []).length := by
  simp only [positionsOf, List.mem_flatMap, List.mem_map, List.mem_range]
  constructor
  · rintro ⟨a, ha, b, hb, h⟩
    obtain ⟨rfl, rfl⟩ := Prod.mk.injEq .. ▸ h
    exact ⟨ha, hb⟩
  · rintro ⟨hr, hc⟩
    exact ⟨r, hr, c, hc, rfl⟩

theorem mem_positionsOf_of_shape9 {g : Grid} (h9 : Shape9 g) {r c : Nat} :
    (r, c) ∈ positionsOf g ↔ r < 9 ∧ c < 9 := by
  rw [mem_positionsOf, h9.1]
  constructor
  · rintro ⟨hr, hc⟩
    exact ⟨hr, by rwa [getD_length_of_shape9 h9 hr] at hc⟩
  · rintro ⟨hr, hc⟩
    exact ⟨hr, by rwa [getD_length_of_shape9 h9 hr]⟩

theorem mem_row_set {g : Grid} {r : Nat} {n : Int} (h9 : Shape9 g) (hr : r < 9) :
    n ∈ row_set g r ↔ n ≠ 0 ∧ ∃ j, j < 9 ∧ cellAt g r j = n := by
  have hlen := getD_length_of_shape9 h9 hr
  rw [row_set, List.mem_filter]
  simp only [Bool.not_eq_true', decide_eq_false_iff_not]
  constructor
  · rintro ⟨hmem, hn⟩
    obtain ⟨j, hj, hget⟩ := List.mem_iff_getElem.1 hmem
    refine ⟨hn, j, by omega, ?_⟩
    simp only [cellAt]
    rw [List.getD_eq_getElem _ _ (by omega)]
    exact hget
  · rintro ⟨hn, j, hj, hget⟩
    have hj2 : j < (g.getD r []).length := by omega
    refine ⟨List.mem_iff_getElem.2 ⟨j, hj2, ?_⟩, hn⟩
    simp only [cellAt] at hget
    rw [List.getD_eq_getElem _ _ hj2] at hget
    exact hget

theorem mem_col_set {g : Grid} {c : Nat} {n : Int} (h9 : Shape9 g) :
    n ∈ col_set g c ↔ n ≠ 0 ∧ ∃ i, i < 9 ∧ cellAt g i c = n := by
  rw [col_set, List.mem_filter]
  simp only [Bool.not_eq_true', decide_eq_false_iff_not, List.mem_map]
  have hlen9 := h9.1
  constructor
  · rintro ⟨⟨row, hrow, hv⟩, hn⟩
    obtain ⟨i, hi, hrowget⟩ := List.mem_iff_getElem.1 hrow
    refine ⟨hn, i, by omega, ?_⟩
    simp only [cellAt]
    rw [List.getD_eq_getElem _ _ hi, hrowget]
    exact hv
  · rintro ⟨hn, i, hi, hget⟩
    have hi2 : i < g.length := by omega
    refine ⟨⟨g[i], List.getElem_mem hi2, ?_⟩, hn⟩
    simp only [cellAt] at hget
    rw [List.getD_eq_getElem _ _ hi2] at hget
    exact hget

theorem mem_subgrid_set {g : Grid} {sid : Nat × Nat} {n : Int} (h9 : Shape9 g) :
    n ∈ subgrid_set g sid ↔
      n ≠ 0 ∧ ∃ i, i < 9 ∧ ∃ j, j < 9 ∧ make_subgrid_id i j = sid ∧ cellAt g i j = n := by
  simp only [subgrid_set, List.mem_map, List.mem_filter, Bool.and_eq_true,
    Bool.not_eq_true', decide_eq_false_iff_not, Decidable.not_not, decide_eq_true_eq]
  constructor
  · rintro ⟨⟨i, j⟩, ⟨hpos, hnz, hsid⟩, hval⟩
    obtain ⟨hi, hj⟩ := (mem_positionsOf_of_shape9 h9).1 hpos
    exact ⟨by rwa [hval] at hnz, i, hi, j, hj, hsid, hval⟩
  · rintro ⟨hn, i, hi, j, hj, hsid, hval⟩
    refine ⟨(i, j), ⟨(mem_positionsOf_of_shape9 h9).2 ⟨hi, hj⟩, ?_, hsid⟩, hval⟩
    rw [hval]; exact hn

theorem mem_digits1to9 {n : Int} : n ∈ digits1to9 ↔ 1 ≤ n ∧ n ≤ 9 := by
  simp only [digits1to9, List.mem_cons, List.not_mem_nil, or_false]
  omega

/-- The candidate set as the specification words it: the digits 1..9
minus the union of the non-zero values present in the position's row,
in its column, and in its 3x3 box, the box of (r, c) being the cells
(i, j) with i / 3 = r / 3 and j / 3 = c / 3 in integer division.
This definition follows the text of the spec (sections 3 and 4.2); it
is compared with the source-derived possible_values_of below. -/
def specCandidates (g : Grid) (r c : Nat) : Set Int :=
  {n | (1 ≤ n ∧ n ≤ 9) ∧
       ¬ (∃ j, j < 9 ∧ cellAt g r j = n ∧ n ≠ 0) ∧
       ¬ (∃ i, i < 9 ∧ cellAt g i c = n ∧ n ≠ 0) ∧
       ¬ (∃ i, i < 9 ∧ ∃ j, j < 9 ∧ i / 3 = r / 3 ∧ j / 3 = c / 3 ∧
            cellAt g i j = n ∧ n ≠ 0)}

theorem possible_values_iff {g : Grid} {r c : Nat} {n : Int}
    (h9 : Shape9 g) (hr : r < 9) (_hc : c < 9) :
    n ∈ possible_values_of g r c ↔ n ∈ specCandidates g r c := by
  simp only [possible_values_of, List.mem_filter, Bool.and_eq_true, Bool.not_eq_true',
    decide_eq_false_iff_not, mem_digits1to9]
  constructor
  · rintro ⟨hd, ⟨hbox, hcol⟩, hrow⟩
    refine ⟨hd, ?_, ?_, ?_⟩
    · rintro ⟨j, hj, hval, hn⟩
      exact hrow ((mem_row_set h9 hr).2 ⟨hn, j, hj, hval⟩)
    · rintro ⟨i, hi, hval, hn⟩
      exact hcol ((mem_col_set h9).2 ⟨hn, i, hi, hval⟩)
    · rintro ⟨i, hi, j, hj, hdi, hdj, hval, hn⟩
      exact hbox ((mem_subgrid_set h9).2
        ⟨hn, i, hi, j, hj, by simp [make_subgrid_id, hdi, hdj], hval⟩)
  · rintro ⟨hd, hnrow, hncol, hnbox⟩
    have hn0 : n ≠ 0 := by omega
    refine ⟨hd, ⟨?_, ?_⟩, ?_⟩
    · intro hmem
      obtain ⟨hn, i, hi, j, hj, hsid, hval⟩ := (mem_subgrid_set h9).1 hmem
      obtain ⟨hdi, hdj⟩ := Prod.mk.injEq .. ▸ hsid
      exact hnbox ⟨i, hi, j, hj, hdi, hdj, hval, hn⟩
    · intro hmem
      obtain ⟨hn, i, hi, hval⟩ := (mem_col_set h9).1 hmem
      exact hncol ⟨i, hi, hval, hn⟩
    · intro hmem
      obtain ⟨hn, j, hj, hval⟩ := (mem_row_set h9 hr).1 hmem
      exact hnrow ⟨j, hj, hval, hn⟩

theorem openPosLoop_cons_skip (g : Grid) (r c : Nat) (rest : List (Nat × Nat))
    (h : cellAt g r c ≠ 0) :
    openPosLoop g ((r, c) :: rest) = openPosLoop g rest := by
  simp [openPosLoop, h]

theorem openPosLoop_cons_zero (g : Grid) (r c : Nat) (rest : List (Nat × Nat))
    (h : cellAt g r c = 0) (hne : possible_values_of g r c ≠ []) :
    openPosLoop g ((r, c) :: rest) =
      match openPosLoop g rest with
      | .error e => .error e
      | .ok m => .ok (((r, c), possible_values_of g r c) :: m) := by
  simp [openPosLoop, h, List.length_eq_zero, hne]

/-- The second pass of get_open_positions succeeds when every empty
position of the scan has a non-empty candidate list, and the map it
returns has exactly the empty positions as keys, each bound to its
candidate list. -/
theorem openPosLoop_ok (g : Grid) (l : List (Nat × Nat))
    (h : ∀ p ∈ l, cellAt g p.1 p.2 = 0 → possible_values_of g p.1 p.2 ≠ []) :
    ∃ m, openPosLoop g l = .ok m ∧
      m.map (fun e => e.1) = l.filter (fun p => decide (cellAt g p.1 p.2 = 0)) ∧
      ∀ e ∈ m, e.2 = possible_values_of g e.1.1 e.1.2 := by
  induction l with
  | nil => exact ⟨[], rfl, rfl, by simp⟩
  | cons p rest ih =>
    obtain ⟨r, c⟩ := p
    obtain ⟨m, hm, hkeys, hvals⟩ := ih (fun q hq => h q (List.mem_cons_of_mem _ hq))
    by_cases h0 : cellAt g r c = 0
    · have hne := h (r, c) (List.mem_cons_self _ _) h0
      refine ⟨((r, c), possible_values_of g r c) :: m, ?_, ?_, ?_⟩
      · rw [openPosLoop_cons_zero g r c rest h0 hne, hm]
      · rw [List.map_cons, List.filter_cons]
        simp [h0, hkeys]
      · intro e he
        rcases List.mem_cons.1 he with rfl | he2
        · rfl
        · exact hvals e he2
    · refine ⟨m, ?_, ?_, hvals⟩
      · rw [openPosLoop_cons_skip g r c rest h0, hm]
      · rw [hkeys, List.filter_cons]
        simp [h0]

/-- C4.  On any 9x9 grid all of whose empty cells admit at least one
candidate, get_open_positions succeeds, its keys are exactly the
positions holding 0, and each key is bound to exactly the digits 1..9
absent from the non-zero values of its row, its column and its box —
the candidate set as the spec defines it. -/
theorem candidates_match_spec (g : Grid) (h9 : Shape9 g)
    (hne : ∀ r, r < 9 → ∀ c, c < 9 → cellAt g r c = 0 → possible_values_of g r c ≠ []) :
    ∃ m, get_open_positions g = .ok m ∧
      (∀ r c, r < 9 → c < 9 → (((r, c) ∈ m.map (fun e => e.1)) ↔ cellAt g r c = 0)) ∧
      (∀ e ∈ m, e.1.1 < 9 ∧ e.1.2 < 9 ∧ cellAt g e.1.1 e.1.2 = 0 ∧
        ∀ n : Int, n ∈ e.2 ↔ n ∈ specCandidates g e.1.1 e.1.2) := by
  obtain ⟨m, hm, hkeys, hvals⟩ := openPosLoop_ok g (positionsOf g) (by
    rintro ⟨r, c⟩ hp h0
    obtain ⟨hr, hc⟩ := (mem_positionsOf_of_shape9 h9).1 hp
    exact hne r hr c hc h0)
  refine ⟨m, hm, ?_, ?_⟩
  · intro r c hr hc
    rw [hkeys, List.mem_filter]
    simp only [decide_eq_true_eq]
    constructor
    · rintro ⟨_, hz⟩; exact hz
    · intro hz; exact ⟨(mem_positionsOf_of_shape9 h9).2 ⟨hr, hc⟩, hz⟩
  · intro e he
    have hkey : e.1 ∈ m.map (fun e => e.1) := List.mem_map.2 ⟨e, he, rfl⟩
    rw [hkeys, List.mem_filter] at hkey
    obtain ⟨hpos, hz⟩ := hkey
    obtain ⟨hr, hc⟩ := (mem_positionsOf_of_shape9 h9).1 (by
      have : (e.1.1, e.1.2) = e.1 := rfl
      rw [this]; exact hpos)
    simp only [decide_eq_true_eq] at hz
    refine ⟨hr, hc, hz, ?_⟩
    intro n
    rw [hvals e he]
    exact possible_values_iff h9 hr hc

/-! Facts about the row-major scan order and full grids, used by the
solver claims. -/

theorem rowMajor_bounds : ∀ p ∈ rowMajor, p.1 < 9 ∧ p.2 < 9 := by decide

theorem rowMajor_mem : ∀ r, r < 9 → ∀ c, c < 9 → (r, c) ∈ rowMajor := by decide

theorem rowMajor_length : rowMajor.length = 81 := by decide

set_option maxRecDepth 4096 in
theorem rowMajor_getElem? : ∀ i, i < 81 → rowMajor[i]? = some (i / 9, i % 9) := by decide

/-- If find? returns a, then a sits at some index of the list and every
element at a strictly smaller index fails the predicate. -/
theorem find?_prefix_false {α : Type} (p : α → Bool) :
    ∀ (l : List α) (a : α), l.find? p = some a →
      ∃ i, ∃ h : i < l.length, l[i] = a ∧
        ∀ j, ∀ hj : j < l.length, j < i → p (l[j]) = false := by
  intro l
  induction l with
  | nil => intro a h; cases h
  | cons x xs ih =>
    intro a h
    by_cases hpx : p x = true
    · have hax : x = a := by
        rw [List.find?_cons_of_pos _ hpx] at h
        exact Option.some.injEq .. ▸ h
      refine ⟨0, by simp, by simpa using hax, ?_⟩
      intro j hj hlt
      omega
    · have hfind : xs.find? p = some a := by
        rw [List.find?_cons_of_neg _ hpx] at h
        exact h
      have hpx2 : p x = false := by
        rcases Bool.eq_false_or_eq_true (p x) with h2 | h2
        · exact absurd h2 hpx
        · exact h2
      obtain ⟨i, hi, hget, hpre⟩ := ih a hfind
      refine ⟨i + 1, by simpa using hi, by simpa using hget, ?_⟩
      intro j hj hlt
      cases j with
      | zero => simpa using hpx2
      | succ k =>
        have hk : k < xs.length := by simp at hj; omega
        have := hpre k hk (by omega)
        simpa using this

theorem cellAt_ne_zero_of_full {g : Grid} (h9 : Shape9 g)
    (hnz : ∀ row ∈ g, ∀ v ∈ row, v ≠ 0) {r c : Nat} (hr : r < 9) (hc : c < 9) :
    cellAt g r c ≠ 0 := by
  have hr2 : r < g.length := by rw [h9.1]; exact hr
  have hlen := getD_length_of_shape9 h9 hr
  have hc2 : c < (g.getD r []).length := by omega
  simp only [cellAt]
  rw [List.getD_eq_getElem _ _ hc2]
  apply hnz (g.getD r [])
  · rw [List.getD_eq_getElem _ _ hr2]
    exact List.getElem_mem hr2
  · exact List.getElem_mem hc2

theorem firstZero_none_of_full {g : Grid} (h9 : Shape9 g)
    (hnz : ∀ row ∈ g, ∀ v ∈ row, v ≠ 0) : firstZero g = none := by
  rw [firstZero, List.find?_eq_none]
  rintro ⟨r, c⟩ hp
  obtain ⟨hr, hc⟩ := rowMajor_bounds _ hp
  simp only [decide_eq_true_eq]
  exact cellAt_ne_zero_of_full h9 hnz hr hc

theorem openPosLoop_all_skip (g : Grid) :
    ∀ l : List (Nat × Nat), (∀ p ∈ l, cellAt g p.1 p.2 ≠ 0) →
      openPosLoop g l = .ok [] := by
  intro l
  induction l with
  | nil => intro _; rfl
  | cons p rest ih =>
    intro h
    obtain ⟨r, c⟩ := p
    rw [openPosLoop_cons_skip g r c rest (h (r, c) (List.mem_cons_self _ _))]
    exact ih (fun q hq => h q (List.mem_cons_of_mem _ hq))

theorem get_open_positions_of_full {g : Grid}
    (hnz : ∀ row ∈ g, ∀ v ∈ row, v ≠ 0) : get_open_positions g = .ok [] := by
  apply openPosLoop_all_skip
  rintro ⟨r, c⟩ hp
  obtain ⟨hr, hc⟩ := mem_positionsOf.1 hp
  simp only [cellAt]
  rw [List.getD_eq_getElem _ _ hc]
  apply hnz (g.getD r [])
  · rw [List.getD_eq_getElem _ _ hr]
    exact List.getElem_mem hr
  · exact List.getElem_mem hc

theorem solveF_of_firstZero_none {fuel : Nat} {g : Grid} {ops : OpenPos}
    (h : firstZero g = none) : _solveF (fuel + 1) g ops = some (some g) := by
  simp [_solveF, h]

/-- A grid with no empty cell is returned as is by the solver: the scan
finds no zero, so the copied grid is returned before any candidate is
consulted. -/
theorem solve_sudoku_of_full (g : Grid) (h9 : Shape9 g)
    (hnz : ∀ row ∈ g, ∀ v ∈ row, v ≠ 0) : solve_sudoku g = .ok (some g) := by
  have hops := get_open_positions_of_full hnz
  have hfz := firstZero_none_of_full h9 hnz
  have h82 : _solveF 82 g [] = some (some g) := by
    rw [(by rfl : (82 : Nat) = 81 + 1)]
    exact solveF_of_firstZero_none hfz
  rw [solve_sudoku, hops]
  simp [h82]

/-- A completely filled 9x9 grid violating every uniqueness
constraint. -/
def onesGrid : Grid := List.replicate 9 (List.replicate 9 (1 : Int))

/-- C8.  A complete valid solution (all cells 1..9, accepted by check
as Valid) is accepted by check and returned unchanged by solve. -/
theorem solve_identity_on_valid_complete (g : Grid) (h9 : Shape9 g)
    (hfull : ∀ row ∈ g, ∀ v ∈ row, 1 ≤ v ∧ v ≤ 9)
    (hvalid : check_sudoku (toRaw g) = some true) :
    check_sudoku (toRaw g) = some true ∧ solve_sudoku g = .ok (some g) :=
  ⟨hvalid, solve_sudoku_of_full g h9 (fun row hrow v hv => by
    have := hfull row hrow v hv; omega)⟩

/-- Witness for C8: the completed valid grid of the source. -/
theorem solve_identity_on_valid_complete_witness :
    check_sudoku (toRaw validGrid) = some true ∧
    solve_sudoku validGrid = .ok (some validGrid) :=
  solve_identity_on_valid_complete validGrid (by decide) (by decide) (by decide)

/-- C10.  Any 9x9 grid with no zero cell is returned unchanged by
solve, whether or not it satisfies the uniqueness constraints: the
solver performs no validation of filled cells. -/
theorem solve_accepts_any_full_grid (g : Grid) (h9 : Shape9 g)
    (hnz : ∀ row ∈ g, ∀ v ∈ row, v ≠ 0) : solve_sudoku g = .ok (some g) :=
  solve_sudoku_of_full g h9 hnz

/-- Witness for C10: the all-ones grid, rejected by check as Invalid,
is still accepted by solve and returned as its own solution. -/
theorem solve_accepts_any_full_grid_witness :
    check_sudoku (toRaw onesGrid) = some false ∧
    solve_sudoku onesGrid = .ok (some onesGrid) :=
  ⟨by decide, solve_accepts_any_full_grid onesGrid (by decide) (by decide)⟩

/-- Every candidate list stored in a successfully computed open
position map is the possible_values list of its key. -/
theorem openPosLoop_vals (g : Grid) : ∀ (l : List (Nat × Nat)) (m : OpenPos),
    openPosLoop g l = .ok m → ∀ e ∈ m, e.2 = possible_values_of g e.1.1 e.1.2 := by
  intro l
  induction l with
  | nil =>
    intro m hm e he
    cases hm
    cases he
  | cons p rest ih =>
    intro m hm e he
    obtain ⟨r, c⟩ := p
    by_cases h0 : cellAt g r c = 0
    · by_cases hne : possible_values_of g r c = []
      · rw [openPosLoop, if_neg (by simpa using h0)] at hm
        rw [if_pos (by simpa using List.length_eq_zero.2 hne)] at hm
        cases hm
      · rw [openPosLoop_cons_zero g r c rest h0 hne] at hm
        cases hrest : openPosLoop g rest with
        | error e2 => rw [hrest] at hm; cases hm
        | ok m2 =>
          rw [hrest] at hm
          cases hm
          rcases List.mem_cons.1 he with rfl | he2
          · rfl
          · exact ih m2 hrest e he2
    · rw [openPosLoop_cons_skip g r c rest h0] at hm
      exact ih m hm e he

/-- Candidate lists are strictly ascending: they are filters of the
ascending literal range(1, 10). -/
theorem possible_values_sorted (g : Grid) (r c : Nat) :
    List.Sorted (· < ·) (possible_values_of g r c) :=
  List.Pairwise.sublist (List.filter_sublist _) (by decide)

/-- Overwriting a tentative value at a cell gives the same grid as
first restoring the cell (to 0 or anything else) and then writing:
assignment at a fixed position is last-write-wins. -/
theorem setCell_setCell (g : Grid) (r c : Nat) (n m : Int) :
    setCell (setCell g r c n) r c m = setCell g r c m := by
  by_cases hr : r < g.length
  · unfold setCell
    rw [List.set_set]
    congr 1
    have hgd : (g.set r ((g.getD r []).set c n)).getD r [] = (g.getD r []).set c n := by
      rw [List.getD_eq_getElem _ _ (by simpa using hr)]
      exact List.getElem_set_self _
    rw [hgd, List.set_set]
  · have hno : ∀ x, g.set r x = g := fun x => List.set_eq_of_length_le (by omega)
    unfold setCell
    rw [hno, hno]

/-- C7.  The search order of _solve: (a) the cell branched on is the
first zero in row-major order — it holds 0 and every position strictly
earlier in the row-major order is filled; (b) the candidate list of
every open position is strictly ascending, so candidates are tried in
ascending numeric order; (c) when the recursive call for candidate n
fails, the remaining candidates are tried on the parent grid with only
themselves written — the tentative n is gone, and writing the next
candidate over n equals restoring the cell and then writing it. -/
theorem search_order_and_undo :
    (∀ (g : Grid) (r c : Nat), firstZero g = some (r, c) →
      r < 9 ∧ c < 9 ∧ cellAt g r c = 0 ∧
      ∀ r2 c2, r2 < 9 → c2 < 9 → r2 * 9 + c2 < r * 9 + c → cellAt g r2 c2 ≠ 0) ∧
    (∀ (g : Grid) (ops : OpenPos), get_open_positions g = .ok ops →
      ∀ e ∈ ops, List.Sorted (· < ·) e.2) ∧
    (∀ (fuel : Nat) (g : Grid) (ops : OpenPos) (r c : Nat) (n : Int) (rest : List Int),
      _solveF fuel (setCell g r c n) ops = some none →
      tryList (fun k => _solveF fuel (setCell g r c k) ops) (n :: rest) =
        tryList (fun k => _solveF fuel (setCell g r c k) ops) rest) ∧
    (∀ (g : Grid) (r c : Nat) (n m : Int),
      setCell (setCell g r c n) r c m = setCell g r c m) := by
  refine ⟨?_, ?_, ?_, setCell_setCell⟩
  · intro g r c h
    have hmem := List.mem_of_find?_eq_some h
    obtain ⟨hr, hc⟩ := rowMajor_bounds _ hmem
    have hp := List.find?_some h
    simp only [decide_eq_true_eq] at hp
    refine ⟨hr, hc, hp, ?_⟩
    intro r2 c2 hr2 hc2 hlt
    obtain ⟨i, hi, hget, hpre⟩ := find?_prefix_false _ rowMajor (r, c) h
    have hi81 : i < 81 := by rw [rowMajor_length] at hi; exact hi
    have hgetq : rowMajor[i]? = some (r, c) := by
      rw [List.getElem?_eq_getElem hi, hget]
    rw [rowMajor_getElem? i hi81] at hgetq
    have hrc : i / 9 = r ∧ i % 9 = c := by
      have := Option.some.injEq .. ▸ hgetq
      exact ⟨congrArg Prod.fst this, congrArg Prod.snd this⟩
    have hieq : i = r * 9 + c := by omega
    have hidx2 : r2 * 9 + c2 < rowMajor.length := by rw [rowMajor_length]; omega
    have hfalse := hpre (r2 * 9 + c2) hidx2 (by omega)
    have hget2 : rowMajor[r2 * 9 + c2]? = some (r2, c2) := by
      rw [rowMajor_getElem? _ (by omega)]
      congr 1
      have h1 : (r2 * 9 + c2) / 9 = r2 := by omega
      have h2 : (r2 * 9 + c2) % 9 = c2 := by omega
      rw [h1, h2]
    have hg2 : rowMajor[r2 * 9 + c2] = ((r2, c2) : Nat × Nat) := by
      rw [List.getElem_eq_iff]
      exact hget2
    rw [hg2] at hfalse
    simp only [decide_eq_false_iff_not] at hfalse
    exact hfalse
  · intro g ops hops e he
    rw [openPosLoop_vals g (positionsOf g) ops hops e he]
    exact possible_values_sorted g e.1.1 e.1.2
  · intro fuel g ops r c n rest h
    rw [tryList, h]

/-- Witness for C7: instantiating the first-zero characterisation on
the easy puzzle of the source, whose first open cell is (0, 2). -/
theorem search_order_and_undo_witness :
    0 < 9 ∧ 2 < 9 ∧ cellAt easyGrid 0 2 = 0 ∧
    ∀ r2 c2, r2 < 9 → c2 < 9 → r2 * 9 + c2 < 0 * 9 + 2 → cellAt easyGrid r2 c2 ≠ 0 :=
  search_order_and_undo.1 easyGrid 0 2 (by rfl)

/-! Machinery for the termination claim: writing a non-zero digit into
an in-range cell that held 0 lowers the number of zeros by one, and a
fuel budget exceeding the number of zeros makes the fuel irrelevant. -/

theorem Shape9_setCell {g : Grid} (h9 : Shape9 g) {r : Nat} (hr : r < 9) (c : Nat) (n : Int) :
    Shape9 (setCell g r c n) := by
  constructor
  · simp [setCell, h9.1]
  · intro row hrow
    rcases List.mem_or_eq_of_mem_set hrow with h | h
    · exact h9.2 row h
    · rw [h, List.length_set]
      exact getD_length_of_shape9 h9 hr

theorem getD_set_self_of_lt {α : Type} (l : List α) (i : Nat) (x d : α) (h : i < l.length) :
    (l.set i x).getD i d = x := by
  have h2 : i < (l.set i x).length := by simpa using h
  rw [List.getD_eq_getElem _ _ h2]
  exact List.getElem_set_self h2

theorem getD_set_ne_list {α : Type} (l : List α) (i j : Nat) (x d : α) (h : i ≠ j) :
    (l.set i x).getD j d = l.getD j d := by
  rw [List.getD_eq_getElem?_getD, List.getElem?_set_ne h, ← List.getD_eq_getElem?_getD]

theorem cellAt_setCell_self {g : Grid} (h9 : Shape9 g) {r c : Nat}
    (hr : r < 9) (hc : c < 9) (n : Int) : cellAt (setCell g r c n) r c = n := by
  have hr2 : r < g.length := by rw [h9.1]; exact hr
  have hlen := getD_length_of_shape9 h9 hr
  simp only [cellAt, setCell]
  rw [getD_set_self_of_lt g r _ [] hr2]
  rw [getD_set_self_of_lt (g.getD r []) c n 0 (by omega)]

theorem cellAt_setCell_ne (g : Grid) (r c r2 c2 : Nat) (n : Int)
    (h : r2 ≠ r ∨ c2 ≠ c) : cellAt (setCell g r c n) r2 c2 = cellAt g r2 c2 := by
  rcases h with h | h
  · simp only [cellAt, setCell]
    rw [getD_set_ne_list g r r2 _ [] (Ne.symm h)]
  · by_cases hrr : r2 = r
    · subst hrr
      simp only [cellAt, setCell]
      by_cases hr2 : r2 < g.length
      · rw [getD_set_self_of_lt g r2 _ [] hr2]
        rw [getD_set_ne_list (g.getD r2 []) c c2 n 0 (Ne.symm h)]
      · rw [List.set_eq_of_length_le (by omega)]
    · simp only [cellAt, setCell]
      rw [getD_set_ne_list g r r2 _ [] (fun he => hrr he.symm)]

/-- If the predicate flips from true to false at one element of a
duplicate-free list and agrees everywhere else, the count drops by
exactly one. -/
theorem countP_pred_change {α : Type} (l : List α) (hl : l.Nodup) (a : α) (ha : a ∈ l)
    (p q : α → Bool) (hpa : p a = true) (hqa : q a = false)
    (hrest : ∀ b ∈ l, b ≠ a → p b = q b) :
    l.countP q + 1 = l.countP p := by
  induction l with
  | nil => cases ha
  | cons x xs ih =>
    rcases List.mem_cons.1 ha with rfl | hmem
    · have hnot : a ∉ xs := (List.nodup_cons.1 hl).1
      have heq : xs.countP p = xs.countP q := List.countP_congr (fun b hb => by
        rw [hrest b (List.mem_cons_of_mem _ hb) (fun hba => hnot (hba ▸ hb))])
      rw [List.countP_cons, List.countP_cons, hpa, hqa, heq]
      simp
    · have hxa : x ≠ a := by
        rintro rfl
        exact (List.nodup_cons.1 hl).1 hmem
      have hx : p x = q x := hrest x (List.mem_cons_self _ _) hxa
      have hih := ih (List.nodup_cons.1 hl).2 hmem
        (fun b hb hba => hrest b (List.mem_cons_of_mem _ hb) hba)
      rw [List.countP_cons, List.countP_cons, ← hx]
      omega

set_option maxRecDepth 8192 in
theorem rowMajor_nodup : rowMajor.Nodup := by decide

theorem countZeros_setCell {g : Grid} {r c : Nat} {n : Int} (h9 : Shape9 g)
    (hr : r < 9) (hc : c < 9) (h0 : cellAt g r c = 0) (hn : n ≠ 0) :
    countZeros (setCell g r c n) + 1 = countZeros g := by
  apply countP_pred_change rowMajor rowMajor_nodup (r, c) (rowMajor_mem r hr c hc)
  · simp [h0]
  · simp [cellAt_setCell_self h9 hr hc, hn]
  · rintro ⟨r2, c2⟩ hb hne
    have hsplit : r2 ≠ r ∨ c2 ≠ c := by
      by_contra hcon
      push_neg at hcon
      exact hne (by rw [hcon.1, hcon.2])
    simp only [decide_eq_decide]
    rw [cellAt_setCell_ne g r c r2 c2 n hsplit]

/-- Every candidate list of a successfully computed open position map
holds only non-zero digits. -/
def opsWF (ops : OpenPos) : Prop := ∀ e ∈ ops, ∀ n ∈ e.2, n ≠ 0

theorem get_open_positions_wf {g : Grid} {ops : OpenPos}
    (h : get_open_positions g = .ok ops) : opsWF ops := by
  intro e he n hn
  rw [openPosLoop_vals g (positionsOf g) ops h e he] at hn
  have hm : n ∈ digits1to9 := List.mem_of_mem_filter hn
  have := mem_digits1to9.1 hm
  omega

theorem get_possible_values_wf {ops : OpenPos} (h : opsWF ops) (r c : Nat) :
    ∀ n ∈ get_possible_values r c ops, n ≠ 0 := by
  intro n hn
  unfold get_possible_values at hn
  cases hfind : ops.find? (fun e => e.1 == (r, c)) with
  | none => rw [hfind] at hn; cases hn
  | some e =>
    rw [hfind] at hn
    exact h e (List.mem_of_find?_eq_some hfind) n hn

/-- With more fuel than there are zeros, the search cannot run out of
fuel and its result does not depend on the exact fuel budget. -/
theorem solveF_invariance : ∀ fuel g ops, Shape9 g → opsWF ops → countZeros g < fuel →
    _solveF fuel g ops ≠ none ∧
    ∀ fuel2, countZeros g < fuel2 → _solveF fuel g ops = _solveF fuel2 g ops := by
  intro fuel
  induction fuel using Nat.strong_induction_on with
  | _ fuel IH =>
  intro g ops h9 hwf hcount
  match fuel, hcount with
  | fz + 1, hcount =>
  cases hfz : firstZero g with
  | none =>
    constructor
    · rw [solveF_of_firstZero_none hfz]; simp
    · intro fuel2 h2
      match fuel2, h2 with
      | f2 + 1, h2 => rw [solveF_of_firstZero_none hfz, solveF_of_firstZero_none hfz]
  | some rc =>
    obtain ⟨r, c⟩ := rc
    have hmem := List.mem_of_find?_eq_some hfz
    obtain ⟨hr, hc⟩ := rowMajor_bounds _ hmem
    have h0 : cellAt g r c = 0 := by simpa using List.find?_some hfz
    have hstep : ∀ f, _solveF (f + 1) g ops =
        tryList (fun n => _solveF f (setCell g r c n) ops) (get_possible_values r c ops) := by
      intro f
      simp [_solveF, hfz]
    have key : ∀ cands : List Int, (∀ n ∈ cands, n ≠ 0) →
        tryList (fun n => _solveF fz (setCell g r c n) ops) cands ≠ none ∧
        ∀ f2, countZeros g ≤ f2 →
          tryList (fun n => _solveF f2 (setCell g r c n) ops) cands =
          tryList (fun n => _solveF fz (setCell g r c n) ops) cands := by
      intro cands
      induction cands with
      | nil => intro _; exact ⟨by simp [tryList], fun f2 _ => rfl⟩
      | cons n rest ihrest =>
        intro hnz
        have hn : n ≠ 0 := hnz n (List.mem_cons_self _ _)
        have h9s : Shape9 (setCell g r c n) := Shape9_setCell h9 hr c n
        have hdec : countZeros (setCell g r c n) + 1 = countZeros g :=
          countZeros_setCell h9 hr hc h0 hn
        have hlt : countZeros (setCell g r c n) < fz := by omega
        obtain ⟨hnn, heq⟩ := IH fz (by omega) (setCell g r c n) ops h9s hwf hlt
        obtain ⟨ihnn, iheq⟩ := ihrest (fun k hk => hnz k (List.mem_cons_of_mem _ hk))
        cases hres : _solveF fz (setCell g r c n) ops with
        | none => exact absurd hres hnn
        | some res =>
          cases res with
          | some sol =>
            constructor
            · simp only [tryList, hres]
              simp
            · intro f2 hf2
              have hsame : _solveF f2 (setCell g r c n) ops =
                  _solveF fz (setCell g r c n) ops := (heq f2 (by omega)).symm
              simp only [tryList, hres, hsame]
          | none =>
            constructor
            · simp only [tryList, hres]
              exact ihnn
            · intro f2 hf2
              have hsame : _solveF f2 (setCell g r c n) ops =
                  _solveF fz (setCell g r c n) ops := (heq f2 (by omega)).symm
              simp only [tryList, hres, hsame]
              exact iheq f2 hf2
    have hcands := get_possible_values_wf hwf r c
    constructor
    · rw [hstep fz]
      exact (key _ hcands).1
    · intro fuel2 h2
      match fuel2, h2 with
      | f2 + 1, h2 =>
        rw [hstep fz, hstep f2]
        exact ((key _ hcands).2 f2 (by omega)).symm

/-- C9.  On every 9x9 grid whose candidate indexing succeeds, the
number of empty cells is at most 81, each tentative assignment fills
one previously empty cell with a non-zero digit (lowering the zero
count by one, which bounds the recursion depth by the number of empty
cells), and any fuel budget exceeding the zero count is enough: the
search never exhausts it and the result is independent of it. -/
theorem solver_terminates_within_fuel (g : Grid) (ops : OpenPos) (h9 : Shape9 g)
    (hops : get_open_positions g = .ok ops) :
    countZeros g ≤ 81 ∧
    (∀ r c (n : Int), r < 9 → c < 9 → cellAt g r c = 0 → n ≠ 0 →
      countZeros (setCell g r c n) + 1 = countZeros g) ∧
    ∀ fuel, countZeros g < fuel →
      _solveF fuel g ops ≠ none ∧ _solveF fuel g ops = _solveF (countZeros g + 1) g ops := by
  have hwf := get_open_positions_wf hops
  refine ⟨?_, ?_, ?_⟩
  · have h := List.countP_le_length (p := fun p => decide (cellAt g p.1 p.2 = 0)) (l := rowMajor)
    rw [rowMajor_length] at h
    exact h
  · intro r c n hr hc h0 hn
    exact countZeros_setCell h9 hr hc h0 hn
  · intro fuel hf
    obtain ⟨h1, h2⟩ := solveF_invariance fuel g ops h9 hwf hf
    exact ⟨h1, h2 (countZeros g + 1) (by omega)⟩

/-- Witness for C9: the all-ones grid with its (empty) candidate
index. -/
theorem solver_terminates_within_fuel_witness :
    countZeros onesGrid ≤ 81 ∧
    (∀ r c (n : Int), r < 9 → c < 9 → cellAt onesGrid r c = 0 → n ≠ 0 →
      countZeros (setCell onesGrid r c n) + 1 = countZeros onesGrid) ∧
    ∀ fuel, countZeros onesGrid < fuel →
      _solveF fuel onesGrid [] ≠ none ∧
      _solveF fuel onesGrid [] = _solveF (countZeros onesGrid + 1) onesGrid [] :=
  solver_terminates_within_fuel onesGrid [] (by decide) (by rfl)

/-- Witness for C4: the easy puzzle of the source satisfies both
hypotheses, so its candidate index agrees with the spec. -/
theorem candidates_match_spec_witness :
    ∃ m, get_open_positions easyGrid = .ok m ∧
      (∀ r c, r < 9 → c < 9 →
        (((r, c) ∈ m.map (fun e => e.1)) ↔ cellAt easyGrid r c = 0)) ∧
      (∀ e ∈ m, e.1.1 < 9 ∧ e.1.2 < 9 ∧ cellAt easyGrid e.1.1 e.1.2 = 0 ∧
        ∀ n : Int, n ∈ e.2 ↔ n ∈ specCandidates easyGrid e.1.1 e.1.2) :=
  candidates_match_spec easyGrid (by decide) (by decide)

/-! The store model for the frame claim.  _solve mutates Python list
objects, so to state that the caller's grid object is untouched the
heap is made explicit: a store of grid objects addressed by indices.
copy.deepcopy appends a fresh copy at the end of the store (a fresh
address, sharing nothing with the original), and the assignment
grid[row][col] = n overwrites one store entry in place.  _solve only
ever writes through the address of its own fresh copy, never through
its argument. -/

abbrev Ref := Nat

abbrev Store := List Grid

/-- Dereference a grid object. -/
def readGrid (s : Store) (ref : Ref) : Grid := s.getD ref []

/-- grid[row][col] = n performed on the store entry at ref. -/
def writeCell (s : Store) (ref : Ref) (r c : Nat) (n : Int) : Store :=
  s.set ref (setCell (readGrid s ref) r c n)

/-- The candidate loop of _solve over the store: step n s runs the
recursive call for candidate n (writing n into the working copy
first); a failed candidate leaves the next one to run on the store the
failure returned. -/
def tryListS (step : Int → Store → Store × Option (Option Grid)) :
    List Int → Store → Store × Option (Option Grid)
| [], s => (s, some none)
| n :: rest, s =>
    match step n s with
    | (s2, some (some sol)) => (s2, some (some sol))
    | (s2, some none) => tryListS step rest s2
    | (s2, none) => (s2, none)

/-- _solve in the store model: deep-copy the argument to a fresh
address (the current store length), then search, writing only through
that fresh address. -/
def _solveS : Nat → Store → Ref → OpenPos → Store × Option (Option Grid)
| 0, s, _, _ => (s, none)
| fuel + 1, s, ref, ops =>
    match firstZero (readGrid s ref) with
    | none =>
        (s ++ [readGrid s ref], some (some (readGrid (s ++ [readGrid s ref]) s.length)))
    | some (r, c) =>
        tryListS (fun n s2 => _solveS fuel (writeCell s2 s.length r c n) s.length ops)
          (get_possible_values r c ops) (s ++ [readGrid s ref])

/-- solve_sudoku in the store model. -/
def solve_sudokuS (s : Store) (ref : Ref) : Store × Except String (Option Grid) :=
  match get_open_positions (readGrid s ref) with
  | .error e => (s, .error e)
  | .ok ops =>
      match _solveS 82 s ref ops with
      | (s2, some res) => (s2, .ok res)
      | (s2, none) => (s2, .ok none)

theorem solveS_eq_none {fuel : Nat} (s : Store) (ref : Ref) (ops : OpenPos)
    (h : firstZero (readGrid s ref) = none) :
    _solveS (fuel + 1) s ref ops =
      (s ++ [readGrid s ref], some (some (readGrid (s ++ [readGrid s ref]) s.length))) := by
  simp [_solveS, h]

theorem solveS_eq_some {fuel : Nat} (s : Store) (ref : Ref) (ops : OpenPos) (r c : Nat)
    (h : firstZero (readGrid s ref) = some (r, c)) :
    _solveS (fuel + 1) s ref ops =
      tryListS (fun n s2 => _solveS fuel (writeCell s2 s.length r c n) s.length ops)
        (get_possible_values r c ops) (s ++ [readGrid s ref]) := by
  simp [_solveS, h]

/-- If each step of the candidate loop only grows the store and only
rewrites the entry at gref, so does the whole loop. -/
theorem tryListS_frame (step : Int → Store → Store × Option (Option Grid)) (gref : Ref)
    (hstep : ∀ n s, s.length ≤ (step n s).1.length ∧
      ∀ i, i < s.length → i ≠ gref → (step n s).1.getD i [] = s.getD i []) :
    ∀ (cands : List Int) (s : Store),
      s.length ≤ (tryListS step cands s).1.length ∧
      ∀ i, i < s.length → i ≠ gref →
        (tryListS step cands s).1.getD i [] = s.getD i [] := by
  intro cands
  induction cands with
  | nil => intro s; exact ⟨le_rfl, fun i _ _ => rfl⟩
  | cons n rest ih =>
    intro s
    obtain ⟨hlen, hpres⟩ := hstep n s
    rcases hstepn : step n s with ⟨s2, res⟩
    rw [hstepn] at hlen hpres
    simp only at hlen hpres
    cases res with
    | none =>
      constructor
      · simp only [tryListS, hstepn]
        exact hlen
      · intro i hi hne
        simp only [tryListS, hstepn]
        exact hpres i hi hne
    | some r2 =>
      cases r2 with
      | some sol =>
        constructor
        · simp only [tryListS, hstepn]
          exact hlen
        · intro i hi hne
          simp only [tryListS, hstepn]
          exact hpres i hi hne
      | none =>
        obtain ⟨hlen2, hpres2⟩ := ih s2
        constructor
        · simp only [tryListS, hstepn]
          omega
        · intro i hi hne
          simp only [tryListS, hstepn]
          rw [hpres2 i (by omega) hne]
          exact hpres i hi hne

/-- _solveS only appends fresh objects and rewrites its own fresh
copies: every store entry that existed on entry is unchanged on
exit. -/
theorem solveS_frame : ∀ (fuel : Nat) (s : Store) (ref : Ref) (ops : OpenPos),
    s.length ≤ (_solveS fuel s ref ops).1.length ∧
    ∀ i, i < s.length → (_solveS fuel s ref ops).1.getD i [] = s.getD i [] := by
  intro fuel
  induction fuel with
  | zero => intro s ref ops; exact ⟨le_rfl, fun i _ => rfl⟩
  | succ fz ih =>
    intro s ref ops
    cases hfz : firstZero (readGrid s ref) with
    | none =>
      rw [solveS_eq_none s ref ops hfz]
      constructor
      · simp
      · intro i hi
        simp only
        exact List.getD_append _ _ _ _ hi
    | some rc =>
      obtain ⟨r, c⟩ := rc
      rw [solveS_eq_some s ref ops r c hfz]
      have hstep : ∀ (n : Int) (s2 : Store),
          s2.length ≤ ((_solveS fz (writeCell s2 s.length r c n) s.length ops)).1.length ∧
          ∀ i, i < s2.length → i ≠ s.length →
            ((_solveS fz (writeCell s2 s.length r c n) s.length ops)).1.getD i [] =
              s2.getD i [] := by
        intro n s2
        have hwlen : (writeCell s2 s.length r c n).length = s2.length := by
          simp [writeCell]
        obtain ⟨hl, hp⟩ := ih (writeCell s2 s.length r c n) s.length ops
        constructor
        · omega
        · intro i hi hne
          rw [hp i (by omega)]
          simp only [writeCell]
          exact getD_set_ne_list s2 s.length i _ [] (Ne.symm hne)
      obtain ⟨hlen, hpres⟩ :=
        tryListS_frame _ s.length hstep (get_possible_values r c ops) (s ++ [readGrid s ref])
      constructor
      · have : s.length ≤ (s ++ [readGrid s ref]).length := by simp
        omega
      · intro i hi
        rw [hpres i (by simp; omega) (by omega)]
        exact List.getD_append _ _ _ _ hi

/-- C6.  The caller's grid object is unmodified when solve returns,
whether it returns a solved grid, the Unsolvable signal, or the
upfront-contradiction exception: the only writes performed by the
search go through the fresh deep copies it allocates. -/
theorem solver_preserves_caller_grid (s : Store) (ref : Ref) (href : ref < s.length) :
    readGrid (solve_sudokuS s ref).1 ref = readGrid s ref := by
  unfold solve_sudokuS
  cases hops : get_open_positions (readGrid s ref) with
  | error e => rfl
  | ok ops =>
    obtain ⟨hlen, hpres⟩ := solveS_frame 82 s ref ops
    rcases hres : _solveS 82 s ref ops with ⟨s2, res⟩
    rw [hres] at hpres
    show readGrid
        (match _solveS 82 s ref ops with
          | (s2, some res) => (s2, Except.ok res)
          | (s2, none) => (s2, Except.ok (none : Option Grid))).1 ref = readGrid s ref
    rw [hres]
    have hkeep := hpres ref href
    cases res with
    | some r2 =>
      simp only [readGrid]
      exact hkeep
    | none =>
      simp only [readGrid]
      exact hkeep

/-- Witness for C6: a one-object store holding the all-ones grid. -/
theorem solver_preserves_caller_grid_witness :
    readGrid (solve_sudokuS [onesGrid] 0).1 0 = readGrid [onesGrid] 0 :=
  solver_preserves_caller_grid [onesGrid] 0 (by decide)
